import Mathlib

/-!
Verification of the MarketLens Mobile asynchronous-orchestration slice.

The definitions below are a shallow embedding of the JavaScript source
(src/api.js, src/state.js including the bundled chat module, and
src/js/research.js).  JavaScript strings are modelled as `String` or
`List Char`, in-place object mutation as explicit state passing, thrown
exceptions as `Except`, and the single-threaded callback schedule as an
explicit list of events folded over a step function.
-/

/-- ChatMessage record pushed by `addMessage` in the chat module:
`\x7b role, content, time: Date.now() \x7d`. -/
structure Msg where
  role : String
  content : String
  time : Nat
  deriving DecidableEq, Repr

/-- Embedding of the per-context history update in `addMessage`
(chat module): push the new message, then if the length exceeds 20
keep only the last 20 entries (`slice(-20)`). -/
def addMessageH (h : List Msg) (m : Msg) : List Msg :=
  let h' := h ++ [m]
  if h'.length > 20 then h'.drop (h'.length - 20) else h'

/-- The `_histories` map, keyed by context key; a missing key reads as the
empty history (the source creates `[]` lazily on first write). -/
def emptyHistories : String → List Msg := fun _ => []

/-- Embedding of `addMessage(contextKey, role, content)`: update the history
stored under `key`, leaving every other context untouched. -/
def addMessage (H : String → List Msg) (key : String) (m : Msg) :
    String → List Msg :=
  fun k => if k = key then addMessageH (H k) m else H k

/-- Replay a whole sequence of `addMessage` calls against the empty map. -/
def applyMsgs (ops : List (String × Msg)) : String → List Msg :=
  ops.foldl (fun H p => addMessage H p.1 p.2) emptyHistories

/-- The messages a given context key received, in call order. -/
def msgsFor (key : String) (ops : List (String × Msg)) : List Msg :=
  (ops.filter (fun q => q.1 == key)).map (fun q => q.2)

/-- JavaScript `slice(-n)`: the `n` most recent elements in order. -/
def takeLast (n : Nat) (l : List Msg) : List Msg := l.drop (l.length - n)

theorem foldl_addMessageH (ms : List Msg) : ∀ h : List Msg, h.length ≤ 20 →
    ms.foldl addMessageH h = takeLast 20 (h ++ ms) := by
  induction ms with
  | nil =>
    intro h hh
    simp [takeLast, Nat.sub_eq_zero_of_le hh]
  | cons m ms ih =>
    intro h hh
    simp only [List.foldl_cons]
    by_cases hlt : h.length < 20
    · have h1 : addMessageH h m = h ++ [m] := by
        simp only [addMessageH]
        rw [if_neg (by simp; omega)]
      rw [h1, ih (h ++ [m]) (by simp; omega)]
      simp [List.append_assoc]
    · have hl : h.length = 20 := by omega
      cases h with
      | nil => simp at hl
      | cons x t =>
        have ht : t.length = 19 := by simp at hl; omega
        have h1 : addMessageH (x :: t) m = t ++ [m] := by
          simp only [addMessageH]
          rw [if_pos (by simp; omega)]
          have hlen : ((x :: t) ++ [m]).length - 20 = 1 := by simp; omega
          rw [hlen]
          simp
        rw [h1, ih (t ++ [m]) (by simp; omega)]
        have heq : (x :: t) ++ m :: ms = x :: ((t ++ [m]) ++ ms) := by simp
        rw [heq]
        unfold takeLast
        have hL : ((t ++ [m]) ++ ms).length = 20 + ms.length := by simp; omega
        rw [List.length_cons, hL]
        have h2 : 20 + ms.length + 1 - 20 = (20 + ms.length - 20) + 1 := by omega
        rw [h2, List.drop_succ_cons]

theorem applyMsgs_key (ops : List (String × Msg)) : ∀ H : String → List Msg,
    ∀ k, (ops.foldl (fun H p => addMessage H p.1 p.2) H) k
      = (msgsFor k ops).foldl addMessageH (H k) := by
  induction ops with
  | nil =>
    intro H k
    simp [msgsFor]
  | cons p ops ih =>
    intro H k
    simp only [List.foldl_cons]
    rw [ih]
    by_cases hk : p.1 = k
    · subst hk
      simp [msgsFor, addMessage]
    · have hk' : ¬(k = p.1) := fun h => hk h.symm
      simp [msgsFor, addMessage, hk, hk']

/-- C5: after any sequence of `addMessage` calls, every context key's history
has length at most 20 and equals exactly the 20 most recent messages sent to
that key, in their original order (FIFO truncation of the oldest). -/
theorem addMessage_bound_fifo (ops : List (String × Msg)) (k : String) :
    ((applyMsgs ops) k).length ≤ 20
    ∧ (applyMsgs ops) k = takeLast 20 (msgsFor k ops) := by
  have h1 : (applyMsgs ops) k = takeLast 20 (msgsFor k ops) := by
    unfold applyMsgs
    rw [applyMsgs_key]
    have h0 : emptyHistories k = [] := rfl
    rw [h0]
    have := foldl_addMessageH (msgsFor k ops) [] (by simp)
    simpa using this
  refine ⟨?_, h1⟩
  rw [h1]
  unfold takeLast
  simp only [List.length_drop]
  omega

/-- JavaScript `\s` character class (and the class used by `trim`),
restricted to the code points that can occur in this model. -/
def isJsWs (c : Char) : Bool :=
  c = ' ' || c = '\t' || c = '\n' || c = '\r' || c = '\x0b' || c = '\x0c'
    || c = '\u00A0' || c = '\uFEFF'

/-- Consume a literal pattern case-insensitively (the regex `i` flag),
returning the rest of the input on success. -/
def eatCI : List Char → List Char → Option (List Char)
  | [], l => some l
  | _ :: _, [] => none
  | p :: ps, c :: cs => if p.toLower = c.toLower then eatCI ps cs else none

/-- Match the marker part of the `extractAnswer` regex at the head of the
input: literal `**3.`, then `\s*`, then literal `Agent Answer:**`
(case-insensitively).  Returns the remainder after the marker. -/
def matchMarker (l : List Char) : Option (List Char) :=
  match eatCI "**3.".data l with
  | none => none
  | some r1 => eatCI "agent answer:**".data (r1.dropWhile isJsWs)

/-- Leftmost-match search for the marker, as the regex engine performs it. -/
def findMarker : List Char → Option (List Char)
  | [] => none
  | c :: t =>
    match matchMarker (c :: t) with
    | some r => some r
    | none => findMarker t

/-- The lookahead `(?=\*\*\d+\.)`: literal `**`, one or more digits,
then a literal dot. -/
def lookNum : List Char → Bool
  | '*' :: '*' :: rest =>
    let ds := rest.takeWhile Char.isDigit
    (!ds.isEmpty) && (match rest.drop ds.length with
      | '.' :: _ => true
      | _ => false)
  | _ => false

/-- The lazy capture `([\s\S]*?)` bounded by the lookahead
`(?=\*\*\d+\.|$)`: everything up to the first position where the
next-numbered-section lookahead holds, or the whole rest of the input. -/
def captureUntil : List Char → List Char
  | [] => []
  | c :: t => if lookNum (c :: t) then [] else c :: captureUntil t

/-- JavaScript `String.prototype.trim`. -/
def trimL (l : List Char) : List Char :=
  ((l.dropWhile isJsWs).reverse.dropWhile isJsWs).reverse

/-- Embedding of `extractAnswer(fullMessage)` from the chat module: apply the
regex `\*\*3\.\s*Agent Answer:\*\*\s*([\s\S]*?)(?=\*\*\d+\.|$)/i`; on a
match return the trimmed capture, otherwise return the input unchanged. -/
def extractAnswerL (s : List Char) : List Char :=
  match findMarker s with
  | some r => trimL (captureUntil (r.dropWhile isJsWs))
  | none => s

/-- String-level wrapper of `extractAnswerL`. -/
def extractAnswer (s : String) : String :=
  String.mk (extractAnswerL s.data)

theorem findMarker_eq_none (s : List Char)
    (h : (s.tails.all fun t => (matchMarker t).isNone) = true) :
    findMarker s = none := by
  induction s with
  | nil => rfl
  | cons c t ih =>
    rw [List.tails_cons, List.all_cons, Bool.and_eq_true] at h
    have h1 : matchMarker (c :: t) = none := by
      have := h.1
      rwa [Option.isNone_iff_eq_none] at this
    simp only [findMarker, h1]
    exact ih h.2

/-- C6: `extractAnswer` returns the text between the `3. Agent Answer:`
marker and the next numbered section marker, trimmed — on the spec's example
it returns `"The value is 42"` — and whenever the marker matches at no
position of the input, the input is returned unchanged. -/
theorem extractAnswer_marker_and_fallback :
    extractAnswer "... **3. Agent Answer:** The value is 42 **4. Next:** ..."
        = "The value is 42"
    ∧ ∀ s : List Char, (s.tails.all fun t => (matchMarker t).isNone) = true →
        extractAnswerL s = s := by
  constructor
  · decide
  · intro s h
    simp [extractAnswerL, findMarker_eq_none s h]

/-- Witness for C6: the no-marker input `"plain text, no markers"` contains
the marker at no position, and is returned unchanged. -/
theorem extractAnswer_marker_and_fallback_witness :
    (("plain text, no markers".data.tails.all
        fun t => (matchMarker t).isNone) = true)
    ∧ extractAnswerL "plain text, no markers".data
        = "plain text, no markers".data :=
  ⟨by decide, extractAnswer_marker_and_fallback.2 _ (by decide)⟩

/-- Prepend a character to the first complete line of a split result, or to
the carry-over buffer when no complete line exists. -/
def prependFirst (c : Char) : List (List Char) × List Char → List (List Char) × List Char
  | ([], b) => ([], c :: b)
  | (l :: ls, b) => ((c :: l) :: ls, b)

/-- Decompose a character stream as `buffer.split(newline)` followed by
`buffer = lines.pop()` does: the complete (newline-terminated) lines, and
the trailing fragment retained as the new carry-over buffer. -/
def splitNl : List Char → List (List Char) × List Char
  | [] => ([], [])
  | c :: cs =>
    if c = '\n' then ([] :: (splitNl cs).1, (splitNl cs).2)
    else prependFirst c (splitNl cs)

/-- Per-line handling in `streamResponse`: skip lines that do not start with
the literal prefix `data:`; otherwise `JSON.parse(line.slice(5).trim())`,
where a parse failure (modelled by the abstract parser returning `none`) is
silently swallowed.  Returns the event passed to `onEvent`, if any. -/
def handleLine {J : Type} (parse : List Char → Option J) (line : List Char) :
    Option J :=
  if line.take 5 = "data:".data then parse (trimL (line.drop 5)) else none

/-- The chunk loop of `streamResponse`: append the chunk to the carry-over
buffer, split off the complete lines, keep the trailing fragment as the new
buffer, and deliver the events of the complete lines in order.  The final
buffer is dropped when the transport reports end-of-body. -/
def streamLoop {J : Type} (parse : List Char → Option J) :
    List Char → List (List Char) → List J
  | _, [] => []
  | buf, ch :: chs =>
    (splitNl (buf ++ ch)).1.filterMap (handleLine parse)
      ++ streamLoop parse (splitNl (buf ++ ch)).2 chs

/-- Embedding of `streamResponse(workflowId, runId, onEvent)` after the
stream endpoint responded: on a non-2xx response (`ok = false`) it returns
at once (`if (!res.ok) return;`) having delivered nothing; otherwise it runs
the chunk loop over the response body.  The list of delivered events is the
sequence of `onEvent` calls; `Except.error` would model an uncaught throw,
which this function never produces once a response was received. -/
def streamResponse {J : Type} (parse : List Char → Option J) (ok : Bool)
    (chunks : List (List Char)) : Except Unit (List J) :=
  if ok then Except.ok (streamLoop parse [] chunks) else Except.ok []

theorem splitNl_cons_nl (cs : List Char) :
    splitNl ('\n' :: cs) = ([] :: (splitNl cs).1, (splitNl cs).2) := by
  simp [splitNl]

theorem splitNl_cons (c : Char) (cs : List Char) (hc : ¬c = '\n') :
    splitNl (c :: cs) = prependFirst c (splitNl cs) := by
  simp [splitNl, hc]

theorem splitNl_append (ys : List Char) : ∀ xs : List Char,
    splitNl (xs ++ ys)
      = ((splitNl xs).1 ++ (splitNl ((splitNl xs).2 ++ ys)).1,
         (splitNl ((splitNl xs).2 ++ ys)).2) := by
  intro xs
  induction xs with
  | nil => simp [splitNl]
  | cons c cs ih =>
    by_cases hc : c = '\n'
    · subst hc
      rw [List.cons_append, splitNl_cons_nl, splitNl_cons_nl, ih]
      simp
    · rw [List.cons_append, splitNl_cons c _ hc, splitNl_cons c _ hc, ih]
      rcases hS : splitNl cs with ⟨S1, S2⟩
      cases S1 with
      | nil =>
        simp only [prependFirst, List.nil_append]
        rw [List.cons_append, splitNl_cons c _ hc]
        rcases hT : splitNl (S2 ++ ys) with ⟨T1, T2⟩
        cases T1 <;> simp [prependFirst]
      | cons l ls =>
        simp [prependFirst]

theorem splitNl_buffer_no_nl (x : List Char) : '\n' ∉ (splitNl x).2 := by
  induction x with
  | nil => simp [splitNl]
  | cons c cs ih =>
    by_cases hc : c = '\n'
    · subst hc
      simpa [splitNl] using ih
    · simp only [splitNl, if_neg hc]
      rcases hS : splitNl cs with ⟨S1, S2⟩
      rw [hS] at ih
      cases S1 with
      | nil =>
        simp only [prependFirst, List.mem_cons, not_or]
        exact ⟨fun h => hc h.symm, ih⟩
      | cons l ls => simpa [prependFirst] using ih

theorem splitNl_no_nl (x : List Char) (h : '\n' ∉ x) : splitNl x = ([], x) := by
  induction x with
  | nil => rfl
  | cons c cs ih =>
    have hc : ¬(c = '\n') := fun e => h (by simp [e])
    simp only [splitNl, if_neg hc]
    rw [ih (fun m => h (List.mem_cons_of_mem _ m))]
    simp [prependFirst]

theorem streamLoop_join {J : Type} (parse : List Char → Option J) :
    ∀ (chunks : List (List Char)) (buf : List Char), '\n' ∉ buf →
    streamLoop parse buf chunks
      = (splitNl (buf ++ chunks.flatten)).1.filterMap (handleLine parse) := by
  intro chunks
  induction chunks with
  | nil =>
    intro buf hb
    simp [streamLoop, splitNl_no_nl buf hb]
  | cons ch chs ih =>
    intro buf hb
    simp only [streamLoop]
    rw [ih _ (splitNl_buffer_no_nl (buf ++ ch))]
    have hj : buf ++ (ch :: chs).flatten = (buf ++ ch) ++ chs.flatten := by
      simp
    have hR := splitNl_append chs.flatten (buf ++ ch)
    rw [hj, hR]
    simp

theorem length_filterMap_countP {α β : Type} (f : α → Option β) (l : List α) :
    (l.filterMap f).length = l.countP (fun a => (f a).isSome) := by
  induction l with
  | nil => rfl
  | cons a l ih =>
    cases hf : f a <;> simp [List.filterMap_cons, hf, List.countP_cons, ih]

/-- C2: for every sequence of chunk deliveries, the events delivered to
`onEvent` are exactly, and in order, the parses of the well-formed
`data:`-prefixed complete lines of the chunks' concatenation; hence their
number equals the number of well-formed lines, and a malformed line (one the
parser rejects) never aborts the stream or suppresses a later
well-formed line. -/
theorem streamResponse_events {J : Type} (parse : List Char → Option J)
    (chunks : List (List Char)) :
    streamResponse parse true chunks
        = Except.ok ((splitNl chunks.flatten).1.filterMap (handleLine parse))
    ∧ (streamLoop parse [] chunks).length
        = (splitNl chunks.flatten).1.countP (fun l => (handleLine parse l).isSome) := by
  have h := streamLoop_join parse chunks [] (by simp)
  rw [List.nil_append] at h
  exact ⟨by simp [streamResponse, h], by rw [h, length_filterMap_countP]⟩

/-- C9: when the stream endpoint responds with a non-2xx status,
`streamResponse` returns normally — never an error — and delivers no
event at all: the failure to open the stream is silently swallowed. -/
theorem streamResponse_non2xx {J : Type} (parse : List Char → Option J)
    (chunks : List (List Char)) :
    streamResponse parse false chunks = Except.ok [] := rfl

/-- Credential-exchange response body; `getAuthToken` reads
`data.token || data.jwt || data.access_token`. -/
structure TokenData where
  token : Option String
  jwt : Option String
  access_token : Option String
  deriving DecidableEq, Repr

/-- JavaScript `||` over possibly-absent strings: an absent or empty
(falsy) string falls through to the right operand. -/
def jsOrStr : Option String → Option String → Option String
  | some s, b => if s = "" then b else some s
  | none, b => b

/-- Truthiness of `this.jwt` in the cached-token check. -/
def jwtTruthy : Option String → Bool
  | some s => s != ""
  | none => false

/-- The token-cache fields of `VertesiaAPI`: `this.jwt` and
`this.jwtExpiry` (milliseconds). -/
structure AuthSt where
  jwt : Option String
  jwtExpiry : Int
  deriving DecidableEq, Repr

/-- The token the refresh path stores: `data.token || data.jwt ||
data.access_token`. -/
def tokenOf (d : TokenData) : Option String :=
  jsOrStr d.token (jsOrStr d.jwt d.access_token)

/-- Embedding of `getAuthToken()`: return the cached token while
`Date.now() < this.jwtExpiry - 60000`; otherwise exchange the API key
(`fetchRes` models the exchange response; a non-ok response throws
`Auth failed`), cache the new token with `jwtExpiry = Date.now() + 3500000`,
and return it.  The result carries the returned token, the new cache state,
and whether a refresh (one credential exchange) was performed. -/
def getAuthToken (st : AuthSt) (now : Int) (fetchRes : Except Unit TokenData) :
    Except Unit (Option String × AuthSt × Bool) :=
  if jwtTruthy st.jwt && decide (now < st.jwtExpiry - 60000) then
    Except.ok (st.jwt, st, false)
  else
    match fetchRes with
    | Except.error _ => Except.error ()
    | Except.ok d =>
      Except.ok (tokenOf d, { jwt := tokenOf d, jwtExpiry := now + 3500000 }, true)

/-- C4: a cached token is never returned once `now` reaches
`jwtExpiry - 60000` (skew 60 s): any successful call at or past that instant
performed exactly one refresh, returns the freshly exchanged token and
stamps `jwtExpiry = now + 3500000`.  Moreover a credential fetched at time
`T` (no explicit expiry in the response) is assigned expiry
`T + 3500000`, and a call exactly at `T + 3500000 - 60000` triggers exactly
one refresh and returns the freshly exchanged token. -/
theorem getAuthToken_skew_refresh :
    (∀ (st : AuthSt) (now : Int) (fr : Except Unit TokenData)
        (r : Option String × AuthSt × Bool),
      now ≥ st.jwtExpiry - 60000 →
      getAuthToken st now fr = Except.ok r →
      r.2.2 = true ∧ r.2.1.jwtExpiry = now + 3500000 ∧ r.1 = r.2.1.jwt)
    ∧ (∀ (T : Int) (d1 d2 : TokenData),
      getAuthToken ⟨none, 0⟩ T (Except.ok d1)
          = Except.ok (tokenOf d1, ⟨tokenOf d1, T + 3500000⟩, true)
      ∧ getAuthToken ⟨tokenOf d1, T + 3500000⟩ (T + 3500000 - 60000)
            (Except.ok d2)
          = Except.ok (tokenOf d2,
              ⟨tokenOf d2, T + 3500000 - 60000 + 3500000⟩, true)) := by
  constructor
  · intro st now fr r hge heq
    unfold getAuthToken at heq
    split at heq
    · rename_i hcond
      rw [Bool.and_eq_true] at hcond
      have := of_decide_eq_true hcond.2
      omega
    · cases fr with
      | error e => simp at heq
      | ok d =>
        simp only at heq
        cases heq
        exact ⟨rfl, rfl, rfl⟩
  · intro T d1 d2
    constructor
    · simp [getAuthToken, jwtTruthy]
    · have hlt : ¬(T + 3500000 - 60000 < T + 3500000 - 60000) := by omega
      unfold getAuthToken
      simp [hlt]

/-- Witness for C4: a cached token with expiry 100000 queried at time 40000
(exactly `jwtExpiry - 60000`) is not reused — the call refreshes, returns
the freshly exchanged token, and stamps the new expiry. -/
theorem getAuthToken_skew_refresh_witness :
    ((40000 : Int) ≥ 100000 - 60000
      ∧ getAuthToken ⟨some "tk", 100000⟩ 40000
          (Except.ok ⟨some "new", none, none⟩)
        = Except.ok (some "new", ⟨some "new", 40000 + 3500000⟩, true))
    ∧ ((some "new", (⟨some "new", 40000 + 3500000⟩ : AuthSt), true).2.2 = true
      ∧ (some "new", (⟨some "new", 40000 + 3500000⟩ : AuthSt), true).2.1.jwtExpiry
          = 40000 + 3500000
      ∧ (some "new", (⟨some "new", 40000 + 3500000⟩ : AuthSt), true).1
          = (some "new", (⟨some "new", 40000 + 3500000⟩ : AuthSt), true).2.1.jwt) :=
  ⟨⟨by decide, by rfl⟩,
    getAuthToken_skew_refresh.1 ⟨some "tk", 100000⟩ 40000
      (Except.ok ⟨some "new", none, none⟩) _ (by decide) (by rfl)⟩

/-- Job record created by `createJob` in research.js. -/
structure JobRec where
  id : Nat
  name : String
  status : String
  workspaceId : Option Nat
  workflowId : Option Nat
  runId : Option Nat
  isLive : Bool
  startedAt : Nat
  completedAt : Option Nat
  statusText : String
  deriving DecidableEq, Repr

/-- Observable state of the job system: the persisted `state.jobs` list, the
`state.api` presence flag, the poll interval (`pollActive` is whether
`clearInterval` has not yet run, `attempts` its counter), the pending demo
timer, and side-effect counters — `completedEmits` counts
`research:completed` emissions, `reloadCalls` counts `loadAllObjects`
network calls, `memberCalls` counts `getCollectionMembers` network calls,
`statusCalls` counts `getRunStatus` network calls, `saveWrites` counts
`_saveJobs` store writes, and `jobsChangedEmits` counts `jobs:changed`
emissions. -/
structure Sys where
  jobs : List JobRec
  apiPresent : Bool
  pollActive : Bool
  attempts : Nat
  demoTimer : Option Nat
  completedEmits : Nat
  reloadCalls : Nat
  memberCalls : Nat
  statusCalls : Nat
  saveWrites : Nat
  jobsChangedEmits : Nat
  deriving DecidableEq, Repr

/-- In-place mutation of the first matching element, as `Object.assign` on
the object returned by `find`. -/
def updateFirst (p : JobRec → Bool) (upd : JobRec → JobRec) :
    List JobRec → List JobRec
  | [] => []
  | j :: js => if p j then upd j :: js else j :: updateFirst p upd js

/-- Embedding of `state.updateJob(jobId, updates)`: if a job with the id
exists, assign the updates into it, persist the list, and emit
`jobs:changed`; otherwise do nothing at all. -/
def updateJob (s : Sys) (jobId : Nat) (upd : JobRec → JobRec) : Sys :=
  if s.jobs.any (fun j => j.id == jobId) then
    { s with
      jobs := updateFirst (fun j => j.id == jobId) upd s.jobs,
      saveWrites := s.saveWrites + 1,
      jobsChangedEmits := s.jobsChangedEmits + 1 }
  else s

/-- JavaScript `String.prototype.includes`, on char lists. -/
def containsSub (sub : List Char) : List Char → Bool
  | [] => sub.isEmpty
  | c :: t => sub.isPrefixOf (c :: t) || containsSub sub t

/-- Embedding of `bucketStatus(message)` from research.js: lowercase the
message and map it to one of three coarse progress labels, or `none` for
unrecognized text. -/
def bucketStatus (message : String) : Option String :=
  let msg := message.data.map Char.toLower
  if containsSub "search".data msg || containsSub "finding".data msg
      || containsSub "looking".data msg then
    some "Researching..."
  else if containsSub "writ".data msg || containsSub "compil".data msg
      || containsSub "generat".data msg || containsSub "upload".data msg then
    some "Finalizing..."
  else if containsSub "start".data msg || containsSub "initializ".data msg
      || containsSub "plan".data msg then
    some "Starting..."
  else none

/-- Embedding of `completeJob(jobId)` from research.js: unconditionally mark
the job completed via `updateJob`, then — when `state.api` is set — reload
the document catalog (`loadAllObjects`, a network call) and, if the job has
a workspace, its member list (`getCollectionMembers`, a network call), and
finally emit `research:completed`.  Note the source has no guard against
running twice for the same job. -/
def completeJob (now : Nat) (s : Sys) (jobId : Nat) : Sys :=
  let s1 := updateJob s jobId (fun j =>
    { j with status := "completed", completedAt := some now,
             statusText := "Complete" })
  let s2 :=
    if s1.apiPresent then
      let s2a := { s1 with reloadCalls := s1.reloadCalls + 1 }
      match (s2a.jobs.find? (fun j => j.id == jobId)).bind
          (fun j => j.workspaceId) with
      | some _ => { s2a with memberCalls := s2a.memberCalls + 1 }
      | none => s2a
    else s1
  { s2 with completedEmits := s2.completedEmits + 1 }

/-- Outcome of one `getRunStatus` call inside the poll tick: the call threw
(caught and logged), or it returned and `run?.status || run?.result?.status`
evaluated to the given optional status string. -/
inductive PollOut
  | threw
  | got (status : Option String)
  deriving DecidableEq, Repr

/-- One scheduled callback of the job system: a stream `update` event, a
stream `answer` event, one poll interval tick (with the observed service
status), or the demo-mode `setTimeout` firing. -/
inductive REv
  | streamUpdate (msg : String) (now : Nat)
  | streamAnswer (now : Nat)
  | pollTick (svc : PollOut) (now : Nat)
  | demoFire (now : Nat)
  deriving DecidableEq, Repr

/-- Single-threaded cooperative schedule: the effect of one callback on the
system state, read off `streamJobStatus` and `pollForCompletion` in
research.js.  The poll tick increments `attempts`, times the job out past
120 attempts, otherwise queries the run status and acts on terminal
statuses; a cleared interval (`pollActive = false`) fires no more. -/
def stepJob (jobId : Nat) (s : Sys) (e : REv) : Sys :=
  match e with
  | .streamUpdate msg _ =>
    match bucketStatus msg with
    | some b => updateJob s jobId (fun j => { j with statusText := b })
    | none => s
  | .streamAnswer now => completeJob now s jobId
  | .pollTick svc now =>
    if s.pollActive then
      let s1 := { s with attempts := s.attempts + 1 }
      if s1.attempts > 120 then
        updateJob { s1 with pollActive := false } jobId
          (fun j => { j with status := "failed", statusText := "Timed out" })
      else
        let s2 := { s1 with statusCalls := s1.statusCalls + 1 }
        match svc with
        | .threw => s2
        | .got st =>
          if st == some "completed" || st == some "succeeded" then
            completeJob now { s2 with pollActive := false } jobId
          else if st == some "failed" || st == some "error" then
            updateJob { s2 with pollActive := false } jobId
              (fun j => { j with status := "failed",
                                 statusText := "Research failed" })
          else s2
    else s
  | .demoFire now =>
    match s.demoTimer with
    | some _ => completeJob now { s with demoTimer := none } jobId
    | none => s

/-- Embedding of `createJob(...)` from research.js: build the running job,
`state.addJob` it (persist + `jobs:changed`), then start the two observers
for a live job with a handle (modelled by arming the poll interval; stream
events may then arrive as `REv` events), or arm the fixed 8-second demo
timer for a non-live job.  `newId` is the incremented `_nextJobId`. -/
def createJob (s : Sys) (newId : Nat) (name : String) (workspaceId : Option Nat)
    (workflowId runId : Option Nat) (isLive : Bool) (now : Nat) : Sys :=
  let job : JobRec :=
    { id := newId, name := name, status := "running",
      workspaceId := workspaceId, workflowId := workflowId, runId := runId,
      isLive := isLive, startedAt := now, completedAt := none,
      statusText := "Starting..." }
  let s1 := { s with jobs := job :: s.jobs,
                     saveWrites := s.saveWrites + 1,
                     jobsChangedEmits := s.jobsChangedEmits + 1 }
  if isLive && workflowId.isSome && runId.isSome then
    { s1 with pollActive := true, attempts := 0 }
  else if !isLive then
    { s1 with demoTimer := some 8000 }
  else s1

/-- System state before any job exists. -/
def sysInit (api : Bool) : Sys :=
  { jobs := [], apiPresent := api, pollActive := false, attempts := 0,
    demoTimer := none, completedEmits := 0, reloadCalls := 0,
    memberCalls := 0, statusCalls := 0, saveWrites := 0,
    jobsChangedEmits := 0 }

/-- A live job with a handle, just created while an ApiClient is configured. -/
def liveJobStart : Sys :=
  createJob (sysInit true) 1 "Research" none (some 7) (some 8) true 0

/-- The ordinary successful live run: the stream observes `answer`, then the
next poll tick observes terminal service status `completed`. -/
def c1Trace : List REv :=
  [REv.streamAnswer 10, REv.pollTick (PollOut.got (some "completed")) 15]

/-- C1: the claim fails on the code.  When the stream observes `answer`
first, the poll interval is not cleared and `completeJob` has no guard, so
the subsequent poll tick that observes terminal status runs the completion
side effects a second time: two `research:completed` emissions and two
document reloads for one job, instead of exactly one. -/
theorem completion_effects_run_twice :
    (c1Trace.foldl (stepJob 1) liveJobStart).completedEmits = 2
    ∧ (c1Trace.foldl (stepJob 1) liveJobStart).reloadCalls = 2
    ∧ ((c1Trace.foldl (stepJob 1) liveJobStart).jobs.find?
        (fun j => j.id == 1)).map (fun j => j.status) = some "completed" := by
  decide

/-- A poll tick on which the service reports neither terminal success nor
terminal failure: the `getRunStatus` call threw (caught and logged), or it
returned a non-terminal status. -/
def benignTick : REv → Bool
  | .pollTick PollOut.threw _ => true
  | .pollTick (PollOut.got st) _ =>
    !(st == some "completed" || st == some "succeeded"
      || st == some "failed" || st == some "error")
  | _ => false

theorem stepJob_benign (jobId : Nat) (s : Sys) (e : REv)
    (he : benignTick e = true) (hp : s.pollActive = true)
    (hb : s.attempts + 1 ≤ 120) :
    stepJob jobId s e = { s with attempts := s.attempts + 1,
                                 statusCalls := s.statusCalls + 1 } := by
  cases e with
  | streamUpdate msg now => simp [benignTick] at he
  | streamAnswer now => simp [benignTick] at he
  | demoFire now => simp [benignTick] at he
  | pollTick svc now =>
    cases svc with
    | threw =>
      simp only [stepJob, hp, if_true]
      rw [if_neg (by omega)]
    | got st =>
      simp only [benignTick, Bool.not_eq_true', Bool.or_eq_false_iff,
        beq_eq_false_iff_ne, ne_eq] at he
      obtain ⟨⟨⟨h1, h2⟩, h3⟩, h4⟩ := he
      simp only [stepJob, hp, if_true]
      rw [if_neg (by omega)]
      simp [h1, h2, h3, h4]

theorem foldl_benign (jobId : Nat) : ∀ (evs : List REv) (s : Sys),
    (∀ e ∈ evs, benignTick e = true) → s.pollActive = true →
    s.attempts + evs.length ≤ 120 →
    evs.foldl (stepJob jobId) s
      = { s with attempts := s.attempts + evs.length,
                 statusCalls := s.statusCalls + evs.length } := by
  intro evs
  induction evs with
  | nil =>
    intro s _ _ _
    simp
  | cons e evs ih =>
    intro s hall hp hb
    simp only [List.foldl_cons, List.length_cons]
    rw [stepJob_benign jobId s e (hall e (by simp)) hp (by simp at hb; omega)]
    rw [ih _ (fun e' he' => hall e' (by simp [he'])) (by exact hp)
      (by simp at hb ⊢; omega)]
    have h1 : s.attempts + 1 + evs.length = s.attempts + (evs.length + 1) := by
      omega
    have h2 : s.statusCalls + 1 + evs.length
        = s.statusCalls + (evs.length + 1) := by omega
    simp [h1, h2]

theorem stepJob_timeout (jobId : Nat) (s : Sys) (svc : PollOut) (now : Nat)
    (hp : s.pollActive = true) (hb : s.attempts + 1 > 120) :
    stepJob jobId s (REv.pollTick svc now)
      = updateJob { s with attempts := s.attempts + 1, pollActive := false }
          jobId (fun j => { j with status := "failed",
                                   statusText := "Timed out" }) := by
  simp only [stepJob, hp, if_true]
  rw [if_pos hb]

/-- C7: starting from a freshly created live job, any schedule of 121 poll
ticks on which the stream never produces `answer` and the service never
reports a terminal status ends with the job `failed` / statusText
`Timed out` and the poll interval cleared. -/
theorem poll_timeout_after_121 (evs : List REv)
    (hlen : evs.length = 121) (hall : ∀ e ∈ evs, benignTick e = true) :
    ((evs.foldl (stepJob 1) liveJobStart).jobs.find? (fun j => j.id == 1)).map
        (fun j => (j.status, j.statusText)) = some ("failed", "Timed out")
    ∧ (evs.foldl (stepJob 1) liveJobStart).pollActive = false := by
  obtain ⟨e, he⟩ : ∃ e, evs.drop 120 = [e] := by
    apply List.length_eq_one.mp
    simp [hlen]
  have h120 : (evs.take 120).length = 120 := by
    rw [List.length_take, hlen]
    omega
  have hfold : (evs.take 120).foldl (stepJob 1) liveJobStart
      = { liveJobStart with
          attempts := liveJobStart.attempts + (evs.take 120).length,
          statusCalls := liveJobStart.statusCalls + (evs.take 120).length } :=
    foldl_benign 1 (evs.take 120) liveJobStart
      (fun e' he' => hall e' (List.mem_of_mem_take he'))
      (by decide) (by rw [h120]; decide)
  have hbe : benignTick e = true := by
    apply hall
    have : e ∈ evs.drop 120 := by rw [he]; simp
    exact List.mem_of_mem_drop this
  have hsplit : evs.foldl (stepJob 1) liveJobStart
      = stepJob 1 ((evs.take 120).foldl (stepJob 1) liveJobStart) e := by
    conv_lhs => rw [← List.take_append_drop 120 evs]
    rw [List.foldl_append, he]
    rfl
  rw [hsplit, hfold, h120]
  cases e with
  | streamUpdate msg now => simp [benignTick] at hbe
  | streamAnswer now => simp [benignTick] at hbe
  | demoFire now => simp [benignTick] at hbe
  | pollTick svc now =>
    rw [stepJob_timeout 1 _ svc now (by decide) (by decide)]
    decide

/-- Witness for C7: 121 poll ticks on each of which `getRunStatus` threw a
transient error time the job out. -/
theorem poll_timeout_after_121_witness :
    ((List.replicate 121 (REv.pollTick PollOut.threw 0)).length = 121
      ∧ ∀ e ∈ List.replicate 121 (REv.pollTick PollOut.threw 0),
          benignTick e = true)
    ∧ ((((List.replicate 121 (REv.pollTick PollOut.threw 0)).foldl (stepJob 1)
            liveJobStart).jobs.find? (fun j => j.id == 1)).map
          (fun j => (j.status, j.statusText)) = some ("failed", "Timed out")
      ∧ ((List.replicate 121 (REv.pollTick PollOut.threw 0)).foldl (stepJob 1)
            liveJobStart).pollActive = false) :=
  ⟨⟨by decide, by decide⟩,
    poll_timeout_after_121 _ (by decide) (by decide)⟩

/-- C8 (amended): a job created with `isLive = false` arms the fixed
8-second timer, and when that timer fires the job reaches status
`completed`; when no ApiClient is configured (`state.api` unset — the demo
configuration), no network call (`loadAllObjects`, `getCollectionMembers`,
`getRunStatus`) is performed at any point from creation through
completion. -/
theorem demo_job_completes_without_network (name : String) (ws : Option Nat)
    (now t : Nat) :
    (createJob (sysInit false) 1 name ws none none false now).demoTimer
        = some 8000
    ∧ (createJob (sysInit false) 1 name ws none none false now).reloadCalls = 0
    ∧ (createJob (sysInit false) 1 name ws none none false now).memberCalls = 0
    ∧ (createJob (sysInit false) 1 name ws none none false now).statusCalls = 0
    ∧ ((stepJob 1 (createJob (sysInit false) 1 name ws none none false now)
          (REv.demoFire t)).jobs.find? (fun j => j.id == 1)).map
        (fun j => j.status) = some "completed"
    ∧ (stepJob 1 (createJob (sysInit false) 1 name ws none none false now)
        (REv.demoFire t)).reloadCalls = 0
    ∧ (stepJob 1 (createJob (sysInit false) 1 name ws none none false now)
        (REv.demoFire t)).memberCalls = 0
    ∧ (stepJob 1 (createJob (sysInit false) 1 name ws none none false now)
        (REv.demoFire t)).statusCalls = 0 := by
  simp [createJob, sysInit, stepJob, completeJob, updateJob, updateFirst]

/-- Counterexample to C8 as stated: a job created with `isLive = false`
while an ApiClient is configured (`state.liveMode` off but `state.api` set)
still reaches `completed`, but its completion performs the
`loadAllObjects` network call — so "no network call is performed during the
job's lifecycle" is false for such a job. -/
theorem demo_job_network_call_with_api :
    ((stepJob 1 (createJob (sysInit true) 1 "Demo" none none none false 0)
        (REv.demoFire 8000)).jobs.find? (fun j => j.id == 1)).map
      (fun j => j.status) = some "completed"
    ∧ (stepJob 1 (createJob (sysInit true) 1 "Demo" none none none false 0)
        (REv.demoFire 8000)).reloadCalls = 1 := by
  decide

/-- C10: `state.updateJob` called with a jobId matching no job in the list
is a complete no-op: the whole observable state — jobs list, persisted-store
write count, and `jobs:changed` emission count — is unchanged. -/
theorem updateJob_unknown_id_noop (s : Sys) (jobId : Nat)
    (upd : JobRec → JobRec) (h : ∀ j ∈ s.jobs, ¬(j.id = jobId)) :
    updateJob s jobId upd = s := by
  unfold updateJob
  rw [if_neg]
  intro hany
  rw [List.any_eq_true] at hany
  obtain ⟨j, hj, hbeq⟩ := hany
  exact h j hj (by simpa using hbeq)

/-- A running job with id 1, used to witness the C10 no-op. -/
def c10Sys : Sys :=
  { sysInit true with
    jobs := [{ id := 1, name := "r", status := "running", workspaceId := none,
               workflowId := none, runId := none, isLive := true,
               startedAt := 0, completedAt := none,
               statusText := "Starting..." }] }

/-- Witness for C10: updating job id 2 when only job id 1 exists changes
nothing. -/
theorem updateJob_unknown_id_noop_witness :
    (∀ j ∈ c10Sys.jobs, ¬(j.id = 2))
    ∧ updateJob c10Sys 2 (fun j => { j with status := "failed" }) = c10Sys :=
  ⟨by decide, updateJob_unknown_id_noop c10Sys 2 _ (by decide)⟩

/-- Stream event payload as the chat callbacks inspect it:
`data.type` and `data.message`. -/
structure StreamData where
  type : String
  message : Option String
  deriving DecidableEq, Repr

/-- JavaScript truthiness of `data.message`: present and non-empty. -/
def truthyMsg : Option String → Option String
  | some m => if m = "" then none else some m
  | none => none

/-- Abstract behaviour of the remote service during one live chat turn:
whether `executeResearch` succeeds, the stream events delivered to
`onEvent` before the stream ends, whether the stream then throws instead of
ending normally, and the outcome of the fallback `getRunStatus` call
(`run?.result?.message`). -/
structure ChatEnv where
  execOk : Bool
  streamEvents : List StreamData
  streamThrows : Bool
  runResult : Except Unit (Option String)
  deriving Repr

/-- The chat notifications emitted on the event bus during one turn. -/
inductive ChatEv
  | userMessage
  | thinking
  | response (answer : String)
  | chatError
  deriving DecidableEq, Repr

/-- Observable outcome of one chat turn: emitted events in order, and the
context's history afterwards. -/
structure ChatOut where
  events : List ChatEv
  history : List Msg
  deriving DecidableEq, Repr

/-- One `onEvent` delivery of the chat stream callback: on
`data.type === 'answer' && data.message`, extract the answer, append it to
history, emit `chat:response`, and clear the `_activeStream` marker
(the third component); anything else is ignored. -/
def deliverAnswer (now : Nat) (st : List ChatEv × List Msg × Bool)
    (d : StreamData) : List ChatEv × List Msg × Bool :=
  if d.type = "answer" then
    match truthyMsg d.message with
    | some m =>
      let a := extractAnswer m
      (st.1 ++ [ChatEv.response a],
       addMessageH st.2.1 ⟨"assistant", a, now⟩, false)
    | none => st
  else st

/-- Embedding of the live path of `sendDocChat`: append the user message,
emit `chat:user-message` and `chat:thinking`; a throwing
`executeResearch` is caught as `chat:error`; stream events are delivered in
order; a throwing stream is caught as `chat:error`; if the stream ended
without clearing `_activeStream`, fall back to `getRunStatus` and emit
either `chat:response` (appending to history) or `chat:error`. -/
def sendDocChatLive (env : ChatEnv) (hist0 : List Msg) (question : String)
    (now : Nat) : ChatOut :=
  let hist1 := addMessageH hist0 ⟨"user", question, now⟩
  let evs0 := [ChatEv.userMessage, ChatEv.thinking]
  if !env.execOk then { events := evs0 ++ [ChatEv.chatError], history := hist1 }
  else
    let r := env.streamEvents.foldl (deliverAnswer now) (evs0, hist1, true)
    if env.streamThrows then
      { events := r.1 ++ [ChatEv.chatError], history := r.2.1 }
    else if r.2.2 then
      match env.runResult with
      | Except.error _ =>
        { events := r.1 ++ [ChatEv.chatError], history := r.2.1 }
      | Except.ok (some m) =>
        { events := r.1 ++ [ChatEv.response (extractAnswer m)],
          history := addMessageH r.2.1 ⟨"assistant", extractAnswer m, now⟩ }
      | Except.ok none =>
        { events := r.1 ++ [ChatEv.chatError], history := r.2.1 }
    else { events := r.1, history := r.2.1 }

/-- Embedding of the live path of `sendWorkspaceChat`: identical up to the
stream, but with no fallback of any kind after the stream ends. -/
def sendWorkspaceChatLive (env : ChatEnv) (hist0 : List Msg)
    (question : String) (now : Nat) : ChatOut :=
  let hist1 := addMessageH hist0 ⟨"user", question, now⟩
  let evs0 := [ChatEv.userMessage, ChatEv.thinking]
  if !env.execOk then { events := evs0 ++ [ChatEv.chatError], history := hist1 }
  else
    let r := env.streamEvents.foldl (deliverAnswer now) (evs0, hist1, true)
    if env.streamThrows then
      { events := r.1 ++ [ChatEv.chatError], history := r.2.1 }
    else { events := r.1, history := r.2.1 }

/-- Did the turn emit a `chat:response` event? -/
def hasResponse (evs : List ChatEv) : Bool :=
  evs.any fun e => match e with
    | ChatEv.response _ => true
    | _ => false

/-- Did the turn emit a `chat:error` event? -/
def hasError (evs : List ChatEv) : Bool :=
  evs.any fun e => match e with
    | ChatEv.chatError => true
    | _ => false

/-- Counterexample to C3 as stated: on the workspace-context live path, a
turn whose stream opens and ends without delivering any `answer` event (for
example a non-2xx stream response) terminates with neither an assistant
answer nor an error event — a silent hang, contradicting the claim for
"every chat turn (doc-context or workspace-context)". -/
theorem workspace_chat_neither_outcome :
    hasResponse (sendWorkspaceChatLive ⟨true, [], false, Except.ok none⟩
        [] "q" 0).events = false
    ∧ hasError (sendWorkspaceChatLive ⟨true, [], false, Except.ok none⟩
        [] "q" 0).events = false := by
  decide

theorem hasResponse_foldl_mono (now : Nat) :
    ∀ (ds : List StreamData) (st : List ChatEv × List Msg × Bool),
    hasResponse st.1 = true →
    hasResponse (ds.foldl (deliverAnswer now) st).1 = true := by
  intro ds
  induction ds with
  | nil => intro st h; exact h
  | cons d ds ih =>
    intro st h
    simp only [List.foldl_cons]
    apply ih
    by_cases ht : d.type = "answer"
    · cases hm : truthyMsg d.message with
      | none => simpa [deliverAnswer, ht, hm] using h
      | some m =>
        simp [deliverAnswer, ht, hm, hasResponse, List.any_append]
    · simpa [deliverAnswer, ht] using h

theorem deliver_foldl_active (now : Nat) :
    ∀ (ds : List StreamData) (st : List ChatEv × List Msg × Bool),
    (ds.foldl (deliverAnswer now) st).2.2 = false →
    st.2.2 = false ∨ hasResponse (ds.foldl (deliverAnswer now) st).1 = true := by
  intro ds
  induction ds with
  | nil => intro st h; exact Or.inl h
  | cons d ds ih =>
    intro st h
    simp only [List.foldl_cons] at h ⊢
    rcases ih _ h with h' | h'
    · by_cases ht : d.type = "answer"
      · cases hm : truthyMsg d.message with
        | none =>
          left
          simpa [deliverAnswer, ht, hm] using h'
        | some m =>
          right
          apply hasResponse_foldl_mono
          simp [deliverAnswer, ht, hm, hasResponse, List.any_append]
      · left
        simpa [deliverAnswer, ht] using h'
    · exact Or.inr h'

/-- C3 (amended): on the doc-context live path every turn terminates in at
least one of the two outcomes — a `chat:response` event (the answer having
been appended to history) or a `chat:error` event — for every behaviour of
the service, including a stream that ends without an `answer` event; the
workspace-context path does not share this guarantee. -/
theorem doc_chat_always_resolves (env : ChatEnv) (hist0 : List Msg)
    (question : String) (now : Nat) :
    hasResponse (sendDocChatLive env hist0 question now).events = true
    ∨ hasError (sendDocChatLive env hist0 question now).events = true := by
  simp only [sendDocChatLive]
  cases hx : env.execOk with
  | false =>
    right
    simp [hasError, List.any_append]
  | true =>
    simp only [Bool.not_true, Bool.false_eq_true, if_false]
    cases hs : env.streamThrows with
    | true =>
      right
      simp [hasError, List.any_append]
    | false =>
      simp only [Bool.false_eq_true, if_false]
      cases ha : (env.streamEvents.foldl (deliverAnswer now)
          ([ChatEv.userMessage, ChatEv.thinking],
           addMessageH hist0 ⟨"user", question, now⟩, true)).2.2 with
      | false =>
        left
        rcases deliver_foldl_active now env.streamEvents _ ha with h | h
        · simp at h
        · simpa [ha] using h
      | true =>
        cases hr : env.runResult with
        | error e =>
          right
          simp [hr, hasError, List.any_append]
        | ok o =>
          cases o with
          | some m =>
            left
            simp [hr, hasResponse, List.any_append]
          | none =>
            right
            simp [hr, hasError, List.any_append]
